import Mathlib

/-!
Verification of the patch-locality classification pipeline of the
code-review backend (`issues/management/commands/load_in_patch.py`) and of
the publishable-issue predicate of its API layer (`issues/api.py`).

The Python source is shallowly embedded: database rows become structures,
the two HTTP fetches and the third-party unified-diff parser become
function parameters returning `Except`/plain values, Django querysets
become list transformations, and the per-diff `try/except` boundary
becomes a `match` on `Except`.
-/

namespace CodeReview

/-- An `Issue` row, restricted to the fields this pipeline reads:
file path, optional starting line, line count, and analyzer level. -/
structure Issue where
  path : String
  line : Option Nat
  nb_lines : Nat
  level : String
deriving DecidableEq, Repr

/-- An `IssueLink` row: the join entity between one issue and one diff
(and its revision), carrying the tri-state `in_patch` column
(`none` = unknown, `some b` = classified). -/
@[ext]
structure IssueLink where
  id : Nat
  diff_id : Nat
  revision_id : Nat
  issue : Issue
  in_patch : Option Bool
deriving DecidableEq, Repr

/-- A `Diff` row, restricted to the fields this pipeline reads. -/
structure Diff where
  id : Nat
  mercurial_hash : String
deriving DecidableEq, Repr

/-- The JSON returned by `{repository.url}/json-rev/{commit}`: at least a
description string and an ordered list of parent commit identifiers. -/
structure CommitMeta where
  desc : String
  parents : List String
deriving DecidableEq, Repr

/-- One file's entry in the output of `parsepatch.Patch.parse_patch`:
the `touched` and `added` line-number lists this pipeline reads
(`diff.get("touched", [])` and `diff.get("added", [])`). -/
structure FileDiff where
  touched : List Nat
  added : List Nat
deriving DecidableEq, Repr

/-- The parsed patch as returned by the parser: per-file line data. -/
abbrev RawPatch := List (String × FileDiff)

/-- The per-file changed-line map built by `load_hgmo_patch`
(Python dict `filename -> touched + added`). -/
abbrev Lines := List (String × List Nat)

/-- Python's `str.startswith(pre)`: the prefix test on the character
sequence of the string. -/
def startswith (s pre : String) : Bool :=
  pre.data.isPrefixOf s.data

/-- `patch_rev` computation inside `load_hgmo_patch`:
`meta["desc"].startswith("try_task_config")` selects `parents[0]` — which,
like any Python indexing, raises `IndexError` on an empty list (caught at
the per-diff boundary) — otherwise the diff's own `mercurial_hash` is
kept. -/
def resolved_rev (meta : CommitMeta) (mercurial_hash : String) :
    Except String String :=
  if startswith meta.desc "try_task_config" then
    match meta.parents with
    | [] => Except.error "IndexError: list index out of range"
    | p :: _ => Except.ok p
  else Except.ok mercurial_hash

/-- The tail of `load_hgmo_patch` after the raw-rev download: parse the
text, reject an empty parse result (`assert patch != {}, "Empty patch"`),
and build the `filename -> touched + added` map. -/
def finish_patch (parse_patch : String → RawPatch)
    (fetched : Except String String) : Except String Lines := do
  let text ← fetched
  let patch := parse_patch text
  if patch = [] then Except.error "Empty patch"
  else Except.ok (patch.map (fun fd => (fd.1, fd.2.touched ++ fd.2.added)))

/-- `load_hgmo_patch(diff)`: fetch commit metadata from `json-rev`, resolve
the try-task-config special case, fetch the raw patch from `raw-rev`,
parse it and build the per-file changed-line map. HTTP errors
(`raise_for_status`) and the empty-patch assertion surface as
`Except.error`. -/
def load_hgmo_patch (fetch_meta : String → Except String CommitMeta)
    (fetch_raw : String → Except String String)
    (parse_patch : String → RawPatch) (diff : Diff) : Except String Lines := do
  let meta ← fetch_meta diff.mercurial_hash
  let patch_rev ← resolved_rev meta diff.mercurial_hash
  finish_patch parse_patch (fetch_raw patch_rev)

/-- `detect_in_patch(issue_link, lines)`: sets the link's `in_patch` field.
File absent from the map → `false`; null line → `true`; otherwise the
half-open block `set(range(line, line + nb_lines))` is intersected with
the file's changed-line set (`not chunk_lines.isdisjoint(modified_lines)`). -/
def detect_in_patch (issue_link : IssueLink) (lines : Lines) : IssueLink :=
  match lines.lookup issue_link.issue.path with
  | none =>
      { issue_link with in_patch := some false }
  | some modified_lines =>
      match issue_link.issue.line with
      | none =>
          { issue_link with in_patch := some true }
      | some line =>
          let chunk_lines := List.range' line issue_link.issue.nb_lines
          { issue_link with
              in_patch := some (chunk_lines.any (fun k => modified_lines.contains k)) }

/-- `diff.issue_links.all()`: every link row belonging to the diff. -/
def diff_links (db : List IssueLink) (d : Diff) : List IssueLink :=
  db.filter (fun l => l.diff_id == d.id)

/-- `IssueLink.objects.bulk_update(issue_links, ["in_patch"])`: for each
row of the table, if an updated object with the same primary key is in the
batch, overwrite exactly the `in_patch` column with the object's value. -/
def bulk_update_in_patch (db : List IssueLink) (updated : List IssueLink) :
    List IssueLink :=
  db.map (fun row =>
    match updated.find? (fun u => u.id == row.id) with
    | some u => { row with in_patch := u.in_patch }
    | none => row)

/-- The body of `process_diff`'s `try` block: fetch and parse the patch,
classify every link of the diff, and persist the batch. -/
def process_diff_try (fetch_meta : String → Except String CommitMeta)
    (fetch_raw : String → Except String String)
    (parse_patch : String → RawPatch)
    (db : List IssueLink) (d : Diff) : Except String (List IssueLink) := do
  let lines ← load_hgmo_patch fetch_meta fetch_raw parse_patch d
  let issue_links := (diff_links db d).map (fun l => detect_in_patch l lines)
  Except.ok (bulk_update_in_patch db issue_links)

/-- `process_diff(diff)`: the `try/except Exception` boundary — a failure
anywhere in fetch/parse/classify/persist is caught and logged, leaving the
database rows as they were. -/
def process_diff (fetch_meta : String → Except String CommitMeta)
    (fetch_raw : String → Except String String)
    (parse_patch : String → RawPatch)
    (db : List IssueLink) (d : Diff) : List IssueLink :=
  match process_diff_try fetch_meta fetch_raw parse_patch db d with
  | Except.ok db' => db'
  | Except.error _ => db

/-- Disposition of the database driver for one batched write: `none` when
the write goes through, `some e` when `bulk_update` raises `e` (the
spec's PersistenceFailure — Django's `bulk_update` can raise, and the
exception is caught by the same `except` as the fetch/parse ones). -/
abbrev PersistFailure := List IssueLink → Option String

/-- The batched write with its error path: either the driver raises, or
the table is updated with `bulk_update`'s success semantics. -/
def apply_bulk_update (raises : PersistFailure)
    (db updated : List IssueLink) : Except String (List IssueLink) :=
  match raises updated with
  | some e => Except.error e
  | none => Except.ok (bulk_update_in_patch db updated)

/-- The body of `process_diff`'s `try` block with a fallible database
driver: fetch, parse, classify, persist — any of which may raise. -/
def process_diff_try_persist (fetch_meta : String → Except String CommitMeta)
    (fetch_raw : String → Except String String)
    (parse_patch : String → RawPatch) (raises : PersistFailure)
    (db : List IssueLink) (d : Diff) : Except String (List IssueLink) := do
  let lines ← load_hgmo_patch fetch_meta fetch_raw parse_patch d
  let issue_links := (diff_links db d).map (fun l => detect_in_patch l lines)
  apply_bulk_update raises db issue_links

/-- `process_diff(diff)` over the fallible driver: the `try/except`
boundary catches fetch, parse and persistence failures alike. -/
def process_diff_persist (fetch_meta : String → Except String CommitMeta)
    (fetch_raw : String → Except String String)
    (parse_patch : String → RawPatch) (raises : PersistFailure)
    (db : List IssueLink) (d : Diff) : List IssueLink :=
  match process_diff_try_persist fetch_meta fetch_raw parse_patch raises db d with
  | Except.ok db' => db'
  | Except.error _ => db

/-- `Diff.objects.filter(issue_links__in_patch__isnull=True).order_by("id").distinct()`:
diffs having at least one link with unknown `in_patch`, ordered by id,
deduplicated. -/
def select_diffs (diffs : List Diff) (db : List IssueLink) : List Diff :=
  (List.insertionSort (fun a b => a.id ≤ b.id)
    (diffs.filter
      (fun d => db.any (fun l => l.diff_id == d.id && l.in_patch == none)))).dedup

instance : IsTotal Diff (fun a b => a.id ≤ b.id) :=
  ⟨fun a b => Nat.le_total a.id b.id⟩

instance : IsTrans Diff (fun a b => a.id ≤ b.id) :=
  ⟨fun _ _ _ h1 h2 => le_trans h1 h2⟩

/-- `Command.handle`: select the pending diffs once, then run
`process_diff` on each (`pool.map`; diffs touch disjoint rows, so the
parallel map is modelled by the sequential fold). -/
def handle (fetch_meta : String → Except String CommitMeta)
    (fetch_raw : String → Except String String)
    (parse_patch : String → RawPatch)
    (diffs : List Diff) (db : List IssueLink) : List IssueLink :=
  (select_diffs diffs db).foldl (process_diff fetch_meta fetch_raw parse_patch) db

/-- `Command.handle` over the fallible database driver. -/
def handle_persist (fetch_meta : String → Except String CommitMeta)
    (fetch_raw : String → Except String String)
    (parse_patch : String → RawPatch) (raises : PersistFailure)
    (diffs : List Diff) (db : List IssueLink) : List IssueLink :=
  (select_diffs diffs db).foldl
    (process_diff_persist fetch_meta fetch_raw parse_patch raises) db

/-! ### API layer (`issues/api.py`) -/

/-- Modelled constant `LEVEL_ERROR` imported from `issues/models.py`
(the models module itself is not part of the analysed sources; the spec
calls these "error-level issues"). -/
def LEVEL_ERROR : String := "error"

/-- An issue as seen by the API queries: its analyzer level and its
`in_patch` classification. -/
structure ApiIssue where
  level : String
  in_patch : Option Bool
deriving DecidableEq, Repr

/-- `DiffViewSet.get_queryset`'s annotation
`nb_issues_publishable = Count("issues", filter=Q(issues__in_patch=True) | Q(issues__level=LEVEL_ERROR))`. -/
def nb_issues_publishable (issues : List ApiIssue) : Nat :=
  (issues.filter
    (fun i => (i.in_patch == some true) || (i.level == LEVEL_ERROR))).length

/-- Python's `str.lower()` on one ASCII character. -/
def char_lower (c : Char) : Char :=
  if 65 ≤ c.toNat ∧ c.toNat ≤ 90 then Char.ofNat (c.toNat + 32) else c

/-- Python's `str.lower()`: lower-case the character sequence. -/
def tolower (s : String) : String := ⟨s.data.map char_lower⟩

/-- `IssueCheckDetails.get_queryset`'s publishable filtering:
`publishable = query_params.get("publishable", "true").lower()`, with
`_filter = Q(in_patch=True) | Q(level=LEVEL_ERROR)` applied as
`filter`/`exclude`/no-op, and any other value rejected. -/
def issue_check_details (publishable_param : Option String)
    (issues : List ApiIssue) : Except String (List ApiIssue) :=
  let publishable := tolower (publishable_param.getD "true")
  let f : ApiIssue → Bool :=
    fun i => (i.in_patch == some true) || (i.level == LEVEL_ERROR)
  if publishable = "true" then Except.ok (issues.filter f)
  else if publishable = "false" then Except.ok (issues.filter (fun i => !(f i)))
  else if publishable = "all" then Except.ok issues
  else Except.error "publishable can only be true, false or all"

/-! ### Concrete fixtures used by the witnesses -/

/-- ParsedPatch fixture from the spec's interval-intersection test. -/
def exPatch : Lines := [("a.c", [10, 11, 12, 20])]

/-- Issue at path `"a.c"`, line 8, nb_lines 3. -/
def exLinkA : IssueLink :=
  { id := 1, diff_id := 1, revision_id := 1,
    issue := { path := "a.c", line := some 8, nb_lines := 3, level := "warning" },
    in_patch := none }

/-- Issue at path `"a.c"`, line 13, nb_lines 5. -/
def exLinkB : IssueLink :=
  { id := 2, diff_id := 1, revision_id := 1,
    issue := { path := "a.c", line := some 13, nb_lines := 5, level := "warning" },
    in_patch := none }

/-- Issue at path `"b.c"`. -/
def exLinkC : IssueLink :=
  { id := 3, diff_id := 1, revision_id := 1,
    issue := { path := "b.c", line := some 8, nb_lines := 3, level := "warning" },
    in_patch := none }

/-- Commit metadata fixture from the spec's try-task-config test. -/
def exMeta : CommitMeta :=
  { desc := "try_task_config for bug X", parents := ["P1", "P2"] }

/-- Diff fixture for the try-task-config test. -/
def exDiff : Diff := { id := 1, mercurial_hash := "H" }

/-- Metadata fetcher fixture returning `exMeta` for every commit. -/
def exFm : String → Except String CommitMeta := fun _ => Except.ok exMeta

/-- Raw-patch fetcher fixture that only knows commit `P1`. -/
def exFr : String → Except String String :=
  fun r => if r = "P1" then Except.ok "patch text" else Except.error "unknown rev"

/-- Parser fixture returning one file with touched lines 10–12 and added
line 20. -/
def exParse : String → RawPatch :=
  fun _ => [("a.c", { touched := [10, 11, 12], added := [20] })]

/-- Diff fixture: diff 1 on commit `H1`. -/
def wD1 : Diff := { id := 1, mercurial_hash := "H1" }

/-- Diff fixture: diff 2 on commit `H2`. -/
def wD2 : Diff := { id := 2, mercurial_hash := "H2" }

/-- Two-diff table fixture: diff 1 (commit `H1`) and diff 2 (commit `H2`). -/
def wDiffs : List Diff := [wD1, wD2]

/-- A link sharing `exLinkA`'s issue but with different identity fields
and a previously set classification. -/
def wLinkA2 : IssueLink :=
  { id := 99, diff_id := 7, revision_id := 8,
    issue := { path := "a.c", line := some 8, nb_lines := 3, level := "warning" },
    in_patch := some false }

/-- Link-table fixture: one unknown link on each of diff 1 and diff 2. -/
def wDb : List IssueLink :=
  [{ id := 10, diff_id := 1, revision_id := 5,
     issue := { path := "a.c", line := some 8, nb_lines := 3, level := "warning" },
     in_patch := none },
   { id := 11, diff_id := 2, revision_id := 5,
     issue := { path := "b.c", line := none, nb_lines := 1, level := "warning" },
     in_patch := none }]

/-- Metadata fetcher fixture that fails on commit `H1` and answers an
ordinary (non-try-task-config) description elsewhere. -/
def wFm : String → Except String CommitMeta :=
  fun r => if r = "H1" then Except.error "http 500"
           else Except.ok { desc := "fix bug", parents := [] }

/-- Raw-patch fetcher fixture answering every commit. -/
def wFr : String → Except String String := fun _ => Except.ok "patch text"

/-- Parser fixture: one file `b.c` with touched line 3. -/
def wParse : String → RawPatch :=
  fun _ => [("b.c", { touched := [3], added := [] })]

/-- Parser fixture returning the empty per-file map. -/
def wParseEmpty : String → RawPatch := fun _ => []

/-- Metadata fetcher fixture that succeeds everywhere with an ordinary
description. -/
def wFmOk : String → Except String CommitMeta :=
  fun _ => Except.ok { desc := "fix bug", parents := [] }

/-- Database-driver fixture whose every batched write raises. -/
def wRaisesAll : PersistFailure := fun _ => some "database error"

/-- Database-driver fixture whose writes always go through. -/
def wRaisesNone : PersistFailure := fun _ => none

/-! ### Helper lemmas -/

/-- Every branch of the classifier keeps the link's identity fields and
writes a concrete boolean into `in_patch`. -/
theorem detect_fields (l : IssueLink) (lines : Lines) :
    (detect_in_patch l lines).id = l.id ∧
    (detect_in_patch l lines).diff_id = l.diff_id ∧
    (detect_in_patch l lines).revision_id = l.revision_id ∧
    (detect_in_patch l lines).issue = l.issue ∧
    ∃ b, (detect_in_patch l lines).in_patch = some b := by
  unfold detect_in_patch
  cases lines.lookup l.issue.path with
  | none => simp
  | some s =>
    cases l.issue.line with
    | none => simp
    | some ln => simp

/-- Transitivity of `Forall₂` along a transitive relation. -/
theorem forall2_trans {α : Type} {R : α → α → Prop}
    (hR : ∀ a b c, R a b → R b c → R a c) :
    ∀ {l m n : List α}, List.Forall₂ R l m → List.Forall₂ R m n →
      List.Forall₂ R l n := by
  intro l m n h1
  induction h1 generalizing n with
  | nil => intro h2; cases h2; exact List.Forall₂.nil
  | cons hab _ ih =>
    intro h2
    cases h2 with
    | cons hbc hrest2 => exact List.Forall₂.cons (hR _ _ _ hab hbc) (ih hrest2)

/-- Relational composition of two `Forall₂`s. -/
theorem forall2_comp {α : Type} {R S : α → α → Prop} :
    ∀ {l m n : List α}, List.Forall₂ R l m → List.Forall₂ S m n →
      List.Forall₂ (fun a c => ∃ b, R a b ∧ S b c) l n := by
  intro l m n h1
  induction h1 generalizing n with
  | nil => intro h2; cases h2; exact List.Forall₂.nil
  | cons hab _ ih =>
    intro h2
    cases h2 with
    | cons hbc hrest2 => exact List.Forall₂.cons ⟨_, hab, hbc⟩ (ih hrest2)

/-- Pointwise conjunction of two `Forall₂`s over the same lists. -/
theorem forall2_and {α β : Type} {R S : α → β → Prop} :
    ∀ {l : List α} {m : List β}, List.Forall₂ R l m → List.Forall₂ S l m →
      List.Forall₂ (fun a b => R a b ∧ S a b) l m := by
  intro l m h1
  induction h1 with
  | nil => intro _; exact List.Forall₂.nil
  | cons hab _ ih =>
    intro h2
    cases h2 with
    | cons hbc hrest2 => exact List.Forall₂.cons ⟨hab, hbc⟩ (ih hrest2)

/-- A list is `Forall₂`-related to its image under a map. -/
theorem forall2_map_self {α : Type} {R : α → α → Prop} (f : α → α) :
    ∀ l : List α, (∀ x ∈ l, R x (f x)) → List.Forall₂ R l (l.map f) := by
  intro l
  induction l with
  | nil => intro _; exact List.Forall₂.nil
  | cons a t ih =>
    intro h
    exact List.Forall₂.cons (h a (by simp)) (ih (fun x hx => h x (by simp [hx])))

/-- Every element of the right list of a `Forall₂` has a related element
on the left. -/
theorem forall2_mem_right {α β : Type} {R : α → β → Prop} :
    ∀ {l : List α} {m : List β}, List.Forall₂ R l m → ∀ b ∈ m, ∃ a ∈ l, R a b := by
  intro l m h1
  induction h1 with
  | nil => intro b hb; cases hb
  | cons hab _ ih =>
    intro b hb
    rcases List.mem_cons.mp hb with h | h
    · exact ⟨_, by simp, h ▸ hab⟩
    · rcases ih b h with ⟨a, ha, hr⟩
      exact ⟨a, by simp [ha], hr⟩

/-- A `Forall₂` whose relation forces equal images yields equal maps. -/
theorem forall2_map_eq {α β : Type} {R : α → α → Prop} (f : α → β)
    (hf : ∀ a b, R a b → f a = f b) :
    ∀ {l m : List α}, List.Forall₂ R l m → l.map f = m.map f := by
  intro l m h1
  induction h1 with
  | nil => rfl
  | cons hab _ ih => simp [hf _ _ hab, ih]

/-- Shape of the batch handed to `bulk_update` by `process_diff_try`:
every object is the classification of one of the diff's own links. -/
theorem mem_updated {db : List IssueLink} {d : Diff} {lines : Lines}
    {u : IssueLink}
    (hu : u ∈ (diff_links db d).map (fun l => detect_in_patch l lines)) :
    ∃ l0, l0 ∈ db ∧ l0.diff_id = d.id ∧ u = detect_in_patch l0 lines := by
  rcases List.mem_map.mp hu with ⟨l0, hl0, rfl⟩
  rcases List.mem_filter.mp hl0 with ⟨hmem, hdid⟩
  exact ⟨l0, hmem, by simpa using hdid, rfl⟩

/-- When the fetch/parse step fails, the caught exception leaves the
table untouched. -/
theorem process_diff_of_error (fm : String → Except String CommitMeta)
    (fr : String → Except String String) (parse : String → RawPatch)
    (db : List IssueLink) (d : Diff) (e : String)
    (hfail : load_hgmo_patch fm fr parse d = Except.error e) :
    process_diff fm fr parse db d = db := by
  simp [process_diff, process_diff_try, hfail, Bind.bind, Except.bind]

/-- When the fetch/parse step succeeds, `process_diff` is exactly the
batched write of the classifications of the diff's links. -/
theorem process_diff_of_ok (fm : String → Except String CommitMeta)
    (fr : String → Except String String) (parse : String → RawPatch)
    (db : List IssueLink) (d : Diff) (lines : Lines)
    (hload : load_hgmo_patch fm fr parse d = Except.ok lines) :
    process_diff fm fr parse db d =
      bulk_update_in_patch db
        ((diff_links db d).map (fun l => detect_in_patch l lines)) := by
  simp [process_diff, process_diff_try, hload, Bind.bind, Except.bind]

/-- The batched write of one diff's classifications relates every row to
its successor: identity fields survive, `in_patch` is either kept or set
to a concrete boolean, and — the table's primary keys being distinct —
rows of other diffs keep their `in_patch`. -/
theorem bulk_update_step (db : List IssueLink) (d : Diff) (lines : Lines)
    (hids : (db.map IssueLink.id).Nodup) :
    List.Forall₂ (fun l l' =>
      (l'.id = l.id ∧ l'.diff_id = l.diff_id ∧ l'.revision_id = l.revision_id ∧
        l'.issue = l.issue) ∧
      (l'.in_patch = l.in_patch ∨ ∃ b, l'.in_patch = some b) ∧
      (l.diff_id ≠ d.id → l'.in_patch = l.in_patch))
      db (bulk_update_in_patch db
        ((diff_links db d).map (fun l => detect_in_patch l lines))) := by
  unfold bulk_update_in_patch
  apply forall2_map_self
  intro row hrow
  cases hfind : ((diff_links db d).map
      (fun l => detect_in_patch l lines)).find? (fun u => u.id == row.id) with
  | none => simp [hfind]
  | some u =>
    have humem := List.mem_of_find?_eq_some hfind
    have hid : u.id = row.id := by
      have := List.find?_some hfind
      simpa using this
    rcases mem_updated humem with ⟨l0, hl0mem, hl0did, hueq⟩
    simp only [hfind]
    refine ⟨by simp, ?_, ?_⟩
    · rcases (detect_fields l0 lines).2.2.2.2 with ⟨b, hb⟩
      exact Or.inr ⟨b, by simpa [hueq] using hb⟩
    · intro hne
      exfalso
      have hl0id : l0.id = row.id := by
        have := (detect_fields l0 lines).1
        rw [hueq] at hid
        omega
      have : l0 = row := List.inj_on_of_nodup_map hids hl0mem hrow hl0id
      exact hne (this ▸ hl0did)

/-- Monotone half of `bulk_update_step`, valid without the key-uniqueness
hypothesis: every written value comes from the classifier. -/
theorem bulk_update_mono (db : List IssueLink) (d : Diff) (lines : Lines) :
    List.Forall₂ (fun l l' =>
      (l'.id = l.id ∧ l'.diff_id = l.diff_id ∧ l'.revision_id = l.revision_id ∧
        l'.issue = l.issue) ∧
      (l'.in_patch = l.in_patch ∨ ∃ b, l'.in_patch = some b))
      db (bulk_update_in_patch db
        ((diff_links db d).map (fun l => detect_in_patch l lines))) := by
  unfold bulk_update_in_patch
  apply forall2_map_self
  intro row _
  cases hfind : ((diff_links db d).map
      (fun l => detect_in_patch l lines)).find? (fun u => u.id == row.id) with
  | none => simp [hfind]
  | some u =>
    rcases mem_updated (List.mem_of_find?_eq_some hfind) with ⟨l0, _, _, hueq⟩
    rcases (detect_fields l0 lines).2.2.2.2 with ⟨b, hb⟩
    simp only [hfind]
    exact ⟨by simp, Or.inr ⟨b, by simpa [hueq] using hb⟩⟩

/-- The batched write classifies every one of the diff's own rows. -/
theorem bulk_update_classifies (db : List IssueLink) (d : Diff)
    (lines : Lines) :
    List.Forall₂ (fun l l' => l.diff_id = d.id → ∃ b, l'.in_patch = some b)
      db (bulk_update_in_patch db
        ((diff_links db d).map (fun l => detect_in_patch l lines))) := by
  unfold bulk_update_in_patch
  apply forall2_map_self
  intro row hrow hdid
  cases hfind : ((diff_links db d).map
      (fun l => detect_in_patch l lines)).find? (fun u => u.id == row.id) with
  | none =>
    exfalso
    have hall := List.find?_eq_none.mp hfind
    have hin : detect_in_patch row lines ∈
        (diff_links db d).map (fun l => detect_in_patch l lines) := by
      apply List.mem_map.mpr
      refine ⟨row, ?_, rfl⟩
      exact List.mem_filter.mpr ⟨hrow, by simpa using hdid⟩
    have := hall _ hin
    have hideq : (detect_in_patch row lines).id = row.id := (detect_fields row lines).1
    simp [hideq] at this
  | some u =>
    rcases mem_updated (List.mem_of_find?_eq_some hfind) with ⟨l0, _, _, hueq⟩
    rcases (detect_fields l0 lines).2.2.2.2 with ⟨b, hb⟩
    exact ⟨b, by simpa [hfind, hueq] using hb⟩

/-- One `process_diff` call relates every row to its successor: identity
fields survive, `in_patch` is either kept or set to a concrete boolean,
and — the table's primary keys being distinct — rows of other diffs keep
their `in_patch`. -/
theorem process_diff_step (fm : String → Except String CommitMeta)
    (fr : String → Except String String) (parse : String → RawPatch)
    (db : List IssueLink) (d : Diff)
    (hids : (db.map IssueLink.id).Nodup) :
    List.Forall₂ (fun l l' =>
      (l'.id = l.id ∧ l'.diff_id = l.diff_id ∧ l'.revision_id = l.revision_id ∧
        l'.issue = l.issue) ∧
      (l'.in_patch = l.in_patch ∨ ∃ b, l'.in_patch = some b) ∧
      (l.diff_id ≠ d.id → l'.in_patch = l.in_patch))
      db (process_diff fm fr parse db d) := by
  cases hload : load_hgmo_patch fm fr parse d with
  | error e =>
    rw [process_diff_of_error fm fr parse db d e hload]
    exact List.forall₂_same.mpr
      (fun x _ => ⟨⟨rfl, rfl, rfl, rfl⟩, Or.inl rfl, fun _ => rfl⟩)
  | ok lines =>
    rw [process_diff_of_ok fm fr parse db d lines hload]
    exact bulk_update_step db d lines hids

/-- After a successful fetch/parse of a diff, every one of that diff's
rows carries a concrete classification. -/
theorem process_diff_step_ok (fm : String → Except String CommitMeta)
    (fr : String → Except String String) (parse : String → RawPatch)
    (db : List IssueLink) (d : Diff) (lines : Lines)
    (hload : load_hgmo_patch fm fr parse d = Except.ok lines) :
    List.Forall₂ (fun l l' => l.diff_id = d.id → ∃ b, l'.in_patch = some b)
      db (process_diff fm fr parse db d) := by
  rw [process_diff_of_ok fm fr parse db d lines hload]
  exact bulk_update_classifies db d lines

/-- A caught failure of any step — fetch, parse or the batched write —
leaves the table untouched. -/
theorem process_diff_persist_of_error (fm : String → Except String CommitMeta)
    (fr : String → Except String String) (parse : String → RawPatch)
    (rs : PersistFailure) (db : List IssueLink) (d : Diff) (e : String)
    (hfail : process_diff_try_persist fm fr parse rs db d = Except.error e) :
    process_diff_persist fm fr parse rs db d = db := by
  simp [process_diff_persist, hfail]

/-- A successful `try` body over the fallible driver performed the batched
write of the diff's classifications. -/
theorem process_diff_try_persist_ok (fm : String → Except String CommitMeta)
    (fr : String → Except String String) (parse : String → RawPatch)
    (rs : PersistFailure) (db : List IssueLink) (d : Diff)
    (out : List IssueLink)
    (h : process_diff_try_persist fm fr parse rs db d = Except.ok out) :
    ∃ lines, load_hgmo_patch fm fr parse d = Except.ok lines ∧
      out = bulk_update_in_patch db
        ((diff_links db d).map (fun l => detect_in_patch l lines)) := by
  unfold process_diff_try_persist apply_bulk_update at h
  cases hload : load_hgmo_patch fm fr parse d with
  | error e =>
    rw [hload] at h
    simp [Bind.bind, Except.bind] at h
  | ok lines =>
    rw [hload] at h
    simp only [Bind.bind, Except.bind] at h
    cases hrs : rs ((diff_links db d).map (fun l => detect_in_patch l lines)) with
    | some e => rw [hrs] at h; cases h
    | none =>
      rw [hrs] at h
      exact ⟨lines, rfl, by simpa using h.symm⟩

/-- One `process_diff` call over the fallible driver relates every row to
its successor, as `process_diff_step` does for the infallible one. -/
theorem process_diff_persist_step (fm : String → Except String CommitMeta)
    (fr : String → Except String String) (parse : String → RawPatch)
    (rs : PersistFailure) (db : List IssueLink) (d : Diff)
    (hids : (db.map IssueLink.id).Nodup) :
    List.Forall₂ (fun l l' =>
      (l'.id = l.id ∧ l'.diff_id = l.diff_id ∧ l'.revision_id = l.revision_id ∧
        l'.issue = l.issue) ∧
      (l'.in_patch = l.in_patch ∨ ∃ b, l'.in_patch = some b) ∧
      (l.diff_id ≠ d.id → l'.in_patch = l.in_patch))
      db (process_diff_persist fm fr parse rs db d) := by
  cases htry : process_diff_try_persist fm fr parse rs db d with
  | error e =>
    rw [process_diff_persist_of_error fm fr parse rs db d e htry]
    exact List.forall₂_same.mpr
      (fun x _ => ⟨⟨rfl, rfl, rfl, rfl⟩, Or.inl rfl, fun _ => rfl⟩)
  | ok out =>
    have hout : process_diff_persist fm fr parse rs db d = out := by
      simp [process_diff_persist, htry]
    rw [hout]
    rcases process_diff_try_persist_ok fm fr parse rs db d out htry
      with ⟨lines, _, rfl⟩
    exact bulk_update_step db d lines hids

/-- After a fully successful `try` body — fetch, parse and write — every
one of the diff's rows carries a concrete classification. -/
theorem process_diff_persist_step_ok (fm : String → Except String CommitMeta)
    (fr : String → Except String String) (parse : String → RawPatch)
    (rs : PersistFailure) (db : List IssueLink) (d : Diff)
    (out : List IssueLink)
    (htry : process_diff_try_persist fm fr parse rs db d = Except.ok out) :
    List.Forall₂ (fun l l' => l.diff_id = d.id → ∃ b, l'.in_patch = some b)
      db (process_diff_persist fm fr parse rs db d) := by
  have hout : process_diff_persist fm fr parse rs db d = out := by
    simp [process_diff_persist, htry]
  rw [hout]
  rcases process_diff_try_persist_ok fm fr parse rs db d out htry
    with ⟨lines, _, rfl⟩
  exact bulk_update_classifies db d lines

/-- The infallible model is the fallible one with a driver that never
raises. -/
theorem process_diff_persist_none (fm : String → Except String CommitMeta)
    (fr : String → Except String String) (parse : String → RawPatch)
    (db : List IssueLink) (d : Diff) :
    process_diff_persist fm fr parse (fun _ => none) db d =
      process_diff fm fr parse db d := by
  unfold process_diff_persist process_diff process_diff_try_persist
    process_diff_try apply_bulk_update
  cases hload : load_hgmo_patch fm fr parse d <;>
    simp [hload, Bind.bind, Except.bind]

/-- Membership characterisation of the selection query. -/
theorem mem_select_diffs (diffs : List Diff) (db : List IssueLink) (d : Diff) :
    d ∈ select_diffs diffs db ↔
      d ∈ diffs ∧ ∃ l ∈ db, l.diff_id = d.id ∧ l.in_patch = none := by
  rw [select_diffs, List.mem_dedup, (List.perm_insertionSort _ _).mem_iff,
    List.mem_filter]
  simp [List.any_eq_true]

/-- Monotone run invariant: a fold of `process_diff` calls keeps every
row's identity fields and either keeps its `in_patch` or writes a
concrete boolean. -/
theorem foldl_mono (fm : String → Except String CommitMeta)
    (fr : String → Except String String) (parse : String → RawPatch) :
    ∀ (S : List Diff) (acc : List IssueLink),
      List.Forall₂ (fun l l' =>
        (l'.id = l.id ∧ l'.diff_id = l.diff_id ∧ l'.revision_id = l.revision_id ∧
          l'.issue = l.issue) ∧
        (l'.in_patch = l.in_patch ∨ ∃ b, l'.in_patch = some b))
        acc (S.foldl (process_diff fm fr parse) acc) := by
  have htrans : ∀ a b c : IssueLink,
      ((b.id = a.id ∧ b.diff_id = a.diff_id ∧ b.revision_id = a.revision_id ∧
          b.issue = a.issue) ∧
        (b.in_patch = a.in_patch ∨ ∃ x, b.in_patch = some x)) →
      ((c.id = b.id ∧ c.diff_id = b.diff_id ∧ c.revision_id = b.revision_id ∧
          c.issue = b.issue) ∧
        (c.in_patch = b.in_patch ∨ ∃ x, c.in_patch = some x)) →
      ((c.id = a.id ∧ c.diff_id = a.diff_id ∧ c.revision_id = a.revision_id ∧
          c.issue = a.issue) ∧
        (c.in_patch = a.in_patch ∨ ∃ x, c.in_patch = some x)) := by
    rintro a b c ⟨⟨h1, h2, h3, h4⟩, h5⟩ ⟨⟨g1, g2, g3, g4⟩, g5⟩
    refine ⟨⟨g1.trans h1, g2.trans h2, g3.trans h3, g4.trans h4⟩, ?_⟩
    rcases g5 with g5 | ⟨x, hx⟩
    · rw [g5]; exact h5
    · exact Or.inr ⟨x, hx⟩
  intro S
  induction S with
  | nil =>
    intro acc
    exact List.forall₂_same.mpr (fun x _ => ⟨⟨rfl, rfl, rfl, rfl⟩, Or.inl rfl⟩)
  | cons d S' ih =>
    intro acc
    simp only [List.foldl_cons]
    refine forall2_trans htrans ?_ (ih (process_diff fm fr parse acc d))
    -- the monotone part of one step does not need the key-uniqueness
    -- hypothesis: every written value comes from the classifier
    cases hload : load_hgmo_patch fm fr parse d with
    | error e =>
      rw [process_diff_of_error fm fr parse acc d e hload]
      exact List.forall₂_same.mpr
        (fun x _ => ⟨⟨rfl, rfl, rfl, rfl⟩, Or.inl rfl⟩)
    | ok lines =>
      rw [process_diff_of_ok fm fr parse acc d lines hload]
      unfold bulk_update_in_patch
      apply forall2_map_self
      intro row hrow
      cases hfind : ((diff_links acc d).map
          (fun l => detect_in_patch l lines)).find? (fun u => u.id == row.id) with
      | none => simp [hfind]
      | some u =>
        rcases mem_updated (List.mem_of_find?_eq_some hfind) with ⟨l0, _, _, hueq⟩
        rcases (detect_fields l0 lines).2.2.2.2 with ⟨b, hb⟩
        simp only [hfind]
        exact ⟨by simp, Or.inr ⟨b, by simpa [hueq] using hb⟩⟩

/-- Frame run invariant: if every diff of the worklist whose id satisfies
`P` is processed as a no-op, a fold of `process_diff` calls preserves the
`in_patch` of every row whose `diff_id` satisfies `P`. -/
theorem foldl_frame (fm : String → Except String CommitMeta)
    (fr : String → Except String String) (parse : String → RawPatch)
    (P : Nat → Prop) (db : List IssueLink)
    (hids : (db.map IssueLink.id).Nodup) :
    ∀ (S : List Diff),
      (∀ d' ∈ S, P d'.id → ∀ acc : List IssueLink,
          process_diff fm fr parse acc d' = acc) →
      ∀ acc,
        List.Forall₂ (fun l l' =>
          (l'.id = l.id ∧ l'.diff_id = l.diff_id ∧
            l'.revision_id = l.revision_id ∧ l'.issue = l.issue) ∧
          (P l.diff_id → l'.in_patch = l.in_patch)) db acc →
        List.Forall₂ (fun l l' =>
          (l'.id = l.id ∧ l'.diff_id = l.diff_id ∧
            l'.revision_id = l.revision_id ∧ l'.issue = l.issue) ∧
          (P l.diff_id → l'.in_patch = l.in_patch))
          db (S.foldl (process_diff fm fr parse) acc) := by
  have htrans : ∀ a b c : IssueLink,
      ((b.id = a.id ∧ b.diff_id = a.diff_id ∧ b.revision_id = a.revision_id ∧
          b.issue = a.issue) ∧ (P a.diff_id → b.in_patch = a.in_patch)) →
      ((c.id = b.id ∧ c.diff_id = b.diff_id ∧ c.revision_id = b.revision_id ∧
          c.issue = b.issue) ∧ (P b.diff_id → c.in_patch = b.in_patch)) →
      ((c.id = a.id ∧ c.diff_id = a.diff_id ∧ c.revision_id = a.revision_id ∧
          c.issue = a.issue) ∧ (P a.diff_id → c.in_patch = a.in_patch)) := by
    rintro a b c ⟨⟨h1, h2, h3, h4⟩, h5⟩ ⟨⟨g1, g2, g3, g4⟩, g5⟩
    refine ⟨⟨g1.trans h1, g2.trans h2, g3.trans h3, g4.trans h4⟩, fun hP => ?_⟩
    rw [g5 (h2 ▸ hP), h5 hP]
  intro S
  induction S with
  | nil => intro _ acc h; exact h
  | cons d' S' ih =>
    intro hS acc hacc
    simp only [List.foldl_cons]
    by_cases hp : P d'.id
    · rw [hS d' (by simp) hp acc]
      exact ih (fun x hx hPx => hS x (by simp [hx]) hPx) acc hacc
    · refine ih (fun x hx hPx => hS x (by simp [hx]) hPx)
        (process_diff fm fr parse acc d') ?_
      have haccids : (acc.map IssueLink.id).Nodup := by
        have heq : db.map IssueLink.id = acc.map IssueLink.id :=
          forall2_map_eq IssueLink.id (fun a b h => h.1.1.symm) hacc
        rwa [heq] at hids
      have hstep := process_diff_step fm fr parse acc d' haccids
      refine forall2_trans htrans hacc (hstep.imp ?_)
      rintro a b ⟨hskel, _, hframe⟩
      refine ⟨hskel, fun hP => ?_⟩
      exact hframe (fun heq => hp (heq ▸ hP))

/-- Monotone run invariant over the fallible driver: a fold of
`process_diff` calls keeps every row's identity fields and either keeps
its `in_patch` or writes a concrete boolean. -/
theorem foldl_mono_persist (fm : String → Except String CommitMeta)
    (fr : String → Except String String) (parse : String → RawPatch)
    (rs : PersistFailure) :
    ∀ (S : List Diff) (acc : List IssueLink),
      List.Forall₂ (fun l l' =>
        (l'.id = l.id ∧ l'.diff_id = l.diff_id ∧ l'.revision_id = l.revision_id ∧
          l'.issue = l.issue) ∧
        (l'.in_patch = l.in_patch ∨ ∃ b, l'.in_patch = some b))
        acc (S.foldl (process_diff_persist fm fr parse rs) acc) := by
  have htrans : ∀ a b c : IssueLink,
      ((b.id = a.id ∧ b.diff_id = a.diff_id ∧ b.revision_id = a.revision_id ∧
          b.issue = a.issue) ∧
        (b.in_patch = a.in_patch ∨ ∃ x, b.in_patch = some x)) →
      ((c.id = b.id ∧ c.diff_id = b.diff_id ∧ c.revision_id = b.revision_id ∧
          c.issue = b.issue) ∧
        (c.in_patch = b.in_patch ∨ ∃ x, c.in_patch = some x)) →
      ((c.id = a.id ∧ c.diff_id = a.diff_id ∧ c.revision_id = a.revision_id ∧
          c.issue = a.issue) ∧
        (c.in_patch = a.in_patch ∨ ∃ x, c.in_patch = some x)) := by
    rintro a b c ⟨⟨h1, h2, h3, h4⟩, h5⟩ ⟨⟨g1, g2, g3, g4⟩, g5⟩
    refine ⟨⟨g1.trans h1, g2.trans h2, g3.trans h3, g4.trans h4⟩, ?_⟩
    rcases g5 with g5 | ⟨x, hx⟩
    · rw [g5]; exact h5
    · exact Or.inr ⟨x, hx⟩
  intro S
  induction S with
  | nil =>
    intro acc
    exact List.forall₂_same.mpr (fun x _ => ⟨⟨rfl, rfl, rfl, rfl⟩, Or.inl rfl⟩)
  | cons d S' ih =>
    intro acc
    simp only [List.foldl_cons]
    refine forall2_trans htrans ?_ (ih (process_diff_persist fm fr parse rs acc d))
    cases htry : process_diff_try_persist fm fr parse rs acc d with
    | error e =>
      rw [process_diff_persist_of_error fm fr parse rs acc d e htry]
      exact List.forall₂_same.mpr
        (fun x _ => ⟨⟨rfl, rfl, rfl, rfl⟩, Or.inl rfl⟩)
    | ok out =>
      have hout : process_diff_persist fm fr parse rs acc d = out := by
        simp [process_diff_persist, htry]
      rw [hout]
      rcases process_diff_try_persist_ok fm fr parse rs acc d out htry
        with ⟨lines, _, rfl⟩
      exact bulk_update_mono acc d lines

/-- Frame run invariant over the fallible driver: if every diff of the
worklist whose id satisfies `P` is processed as a no-op, the fold
preserves the `in_patch` of every row whose `diff_id` satisfies `P`. -/
theorem foldl_frame_persist (fm : String → Except String CommitMeta)
    (fr : String → Except String String) (parse : String → RawPatch)
    (rs : PersistFailure) (P : Nat → Prop) (db : List IssueLink)
    (hids : (db.map IssueLink.id).Nodup) :
    ∀ (S : List Diff),
      (∀ d' ∈ S, P d'.id → ∀ acc : List IssueLink,
          process_diff_persist fm fr parse rs acc d' = acc) →
      ∀ acc,
        List.Forall₂ (fun l l' =>
          (l'.id = l.id ∧ l'.diff_id = l.diff_id ∧
            l'.revision_id = l.revision_id ∧ l'.issue = l.issue) ∧
          (P l.diff_id → l'.in_patch = l.in_patch)) db acc →
        List.Forall₂ (fun l l' =>
          (l'.id = l.id ∧ l'.diff_id = l.diff_id ∧
            l'.revision_id = l.revision_id ∧ l'.issue = l.issue) ∧
          (P l.diff_id → l'.in_patch = l.in_patch))
          db (S.foldl (process_diff_persist fm fr parse rs) acc) := by
  have htrans : ∀ a b c : IssueLink,
      ((b.id = a.id ∧ b.diff_id = a.diff_id ∧ b.revision_id = a.revision_id ∧
          b.issue = a.issue) ∧ (P a.diff_id → b.in_patch = a.in_patch)) →
      ((c.id = b.id ∧ c.diff_id = b.diff_id ∧ c.revision_id = b.revision_id ∧
          c.issue = b.issue) ∧ (P b.diff_id → c.in_patch = b.in_patch)) →
      ((c.id = a.id ∧ c.diff_id = a.diff_id ∧ c.revision_id = a.revision_id ∧
          c.issue = a.issue) ∧ (P a.diff_id → c.in_patch = a.in_patch)) := by
    rintro a b c ⟨⟨h1, h2, h3, h4⟩, h5⟩ ⟨⟨g1, g2, g3, g4⟩, g5⟩
    refine ⟨⟨g1.trans h1, g2.trans h2, g3.trans h3, g4.trans h4⟩, fun hP => ?_⟩
    rw [g5 (h2 ▸ hP), h5 hP]
  intro S
  induction S with
  | nil => intro _ acc h; exact h
  | cons d' S' ih =>
    intro hS acc hacc
    simp only [List.foldl_cons]
    by_cases hp : P d'.id
    · rw [hS d' (by simp) hp acc]
      exact ih (fun x hx hPx => hS x (by simp [hx]) hPx) acc hacc
    · refine ih (fun x hx hPx => hS x (by simp [hx]) hPx)
        (process_diff_persist fm fr parse rs acc d') ?_
      have haccids : (acc.map IssueLink.id).Nodup := by
        have heq : db.map IssueLink.id = acc.map IssueLink.id :=
          forall2_map_eq IssueLink.id (fun a b h => h.1.1.symm) hacc
        rwa [heq] at hids
      have hstep := process_diff_persist_step fm fr parse rs acc d' haccids
      refine forall2_trans htrans hacc (hstep.imp ?_)
      rintro a b ⟨hskel, _, hframe⟩
      refine ⟨hskel, fun hP => ?_⟩
      exact hframe (fun heq => hp (heq ▸ hP))

/-- A run over the never-raising driver is exactly `handle`. -/
theorem handle_persist_none (fm : String → Except String CommitMeta)
    (fr : String → Except String String) (parse : String → RawPatch)
    (diffs : List Diff) (db : List IssueLink) :
    handle_persist fm fr parse (fun _ => none) diffs db =
      handle fm fr parse diffs db := by
  unfold handle_persist handle
  have hfold : ∀ (S : List Diff) (acc : List IssueLink),
      S.foldl (process_diff_persist fm fr parse (fun _ => none)) acc =
        S.foldl (process_diff fm fr parse) acc := by
    intro S
    induction S with
    | nil => intro acc; rfl
    | cons d S' ih =>
      intro acc
      simp only [List.foldl_cons, process_diff_persist_none, ih]
  exact hfold _ db

/-- Diffs of a run whose whole `try` body succeeds on every table state
end with every one of their rows concretely classified, whatever the
driver does elsewhere. -/
theorem handle_persist_success (fm : String → Except String CommitMeta)
    (fr : String → Except String String) (parse : String → RawPatch)
    (rs : PersistFailure) (diffs : List Diff) (db : List IssueLink)
    (d2 : Diff)
    (hd2 : d2 ∈ select_diffs diffs db)
    (hok : ∀ acc : List IssueLink, ∃ out,
      process_diff_try_persist fm fr parse rs acc d2 = Except.ok out) :
    List.Forall₂ (fun l l' => l.diff_id = d2.id → ∃ b, l'.in_patch = some b)
      db (handle_persist fm fr parse rs diffs db) := by
  rcases List.append_of_mem hd2 with ⟨S₁, S₂, hsplit⟩
  unfold handle_persist
  rw [hsplit, List.foldl_append, List.foldl_cons]
  have h1 := foldl_mono_persist fm fr parse rs S₁ db
  rcases hok (S₁.foldl (process_diff_persist fm fr parse rs) db)
    with ⟨out, htry⟩
  have h2 := process_diff_persist_step_ok fm fr parse rs
    (S₁.foldl (process_diff_persist fm fr parse rs) db) d2 out htry
  have h3 := foldl_mono_persist fm fr parse rs S₂
    (process_diff_persist fm fr parse rs
      (S₁.foldl (process_diff_persist fm fr parse rs) db) d2)
  have hcomp := forall2_comp (forall2_comp h1 h2) h3
  refine hcomp.imp ?_
  rintro a c ⟨bmid, ⟨b1, hm1, hs⟩, hm2⟩ hdid
  rcases hs (by rw [hm1.1.2.1, hdid]) with ⟨b, hb⟩
  rcases hm2.2 with hkeep | ⟨x, hx⟩
  · exact ⟨b, by rw [hkeep, hb]⟩
  · exact ⟨x, hx⟩

/-- Successful diffs of a run end with every one of their rows concretely
classified. -/
theorem handle_success_some (fm : String → Except String CommitMeta)
    (fr : String → Except String String) (parse : String → RawPatch)
    (diffs : List Diff) (db : List IssueLink) (d2 : Diff) (L : Lines)
    (hd2 : d2 ∈ select_diffs diffs db)
    (hok : load_hgmo_patch fm fr parse d2 = Except.ok L) :
    List.Forall₂ (fun l l' => l.diff_id = d2.id → ∃ b, l'.in_patch = some b)
      db (handle fm fr parse diffs db) := by
  rcases List.append_of_mem hd2 with ⟨S₁, S₂, hsplit⟩
  unfold handle
  rw [hsplit, List.foldl_append, List.foldl_cons]
  have h1 := foldl_mono fm fr parse S₁ db
  have h2 := process_diff_step_ok fm fr parse
    (S₁.foldl (process_diff fm fr parse) db) d2 L hok
  have h3 := foldl_mono fm fr parse S₂
    (process_diff fm fr parse (S₁.foldl (process_diff fm fr parse) db) d2)
  have hcomp := forall2_comp (forall2_comp h1 h2) h3
  refine hcomp.imp ?_
  rintro a c ⟨bmid, ⟨b1, hm1, hs⟩, hm2⟩ hdid
  rcases hs (by rw [hm1.1.2.1, hdid]) with ⟨b, hb⟩
  rcases hm2.2 with hkeep | ⟨x, hx⟩
  · exact ⟨b, by rw [hkeep, hb]⟩
  · exact ⟨x, hx⟩

/-! ### The claims -/

/-- C1: the classifier decides in-patch by priority rules — path absent
from the ParsedPatch gives `false`; null line gives `true`; otherwise the
decision is `true` exactly when the half-open interval
`[line, line + nb_lines)` meets the file's changed-line set — and on
ParsedPatch `{"a.c": {10,11,12,20}}` the three spec examples evaluate to
`true`, `false`, `false`. -/
theorem detect_in_patch_rules :
    (∀ (link : IssueLink) (lines : Lines),
      lines.lookup link.issue.path = none →
        (detect_in_patch link lines).in_patch = some false) ∧
    (∀ (link : IssueLink) (lines : Lines) (s : List Nat),
      lines.lookup link.issue.path = some s → link.issue.line = none →
        (detect_in_patch link lines).in_patch = some true) ∧
    (∀ (link : IssueLink) (lines : Lines) (s : List Nat) (l : Nat),
      lines.lookup link.issue.path = some s → link.issue.line = some l →
        ((detect_in_patch link lines).in_patch = some true ↔
          ∃ k, l ≤ k ∧ k < l + link.issue.nb_lines ∧ k ∈ s)) ∧
    (∀ (link : IssueLink) (lines : Lines) (s : List Nat) (l : Nat),
      lines.lookup link.issue.path = some s → link.issue.line = some l →
        ¬(∃ k, l ≤ k ∧ k < l + link.issue.nb_lines ∧ k ∈ s) →
        (detect_in_patch link lines).in_patch = some false) ∧
    (detect_in_patch exLinkA exPatch).in_patch = some true ∧
    (detect_in_patch exLinkB exPatch).in_patch = some false ∧
    (detect_in_patch exLinkC exPatch).in_patch = some false := by
  refine ⟨?_, ?_, ?_, ?_, by decide, by decide, by decide⟩
  · intro link lines h
    simp [detect_in_patch, h]
  · intro link lines s hs hline
    simp [detect_in_patch, hs, hline]
  · intro link lines s l hs hl
    simp only [detect_in_patch, hs, hl, Option.some.injEq]
    simp [List.any_eq_true, List.mem_range'_1]
    constructor
    · rintro ⟨k, ⟨hk1, hk2⟩, hk3⟩
      exact ⟨k, hk1, hk2, hk3⟩
    · rintro ⟨k, hk1, hk2, hk3⟩
      exact ⟨k, ⟨hk1, hk2⟩, hk3⟩
  · intro link lines s l hs hl hno
    simp only [detect_in_patch, hs, hl, Option.some.injEq]
    rw [List.any_eq_false]
    intro k hk
    simp only [List.mem_range'_1] at hk
    exact fun hmem => hno ⟨k, hk.1, hk.2, List.elem_iff.mp hmem⟩

/-- Witness for C1 at the spec's concrete fixtures. -/
theorem detect_in_patch_rules_witness :
    (detect_in_patch exLinkC exPatch).in_patch = some false ∧
    (detect_in_patch exLinkA exPatch).in_patch = some true :=
  ⟨detect_in_patch_rules.1 exLinkC exPatch (by decide),
   (detect_in_patch_rules.2.2.1 exLinkA exPatch [10, 11, 12, 20] 8
      (by decide) rfl).2 ⟨10, by decide, by decide, by decide⟩⟩

/-- C2: once the commit metadata is fetched, the fetcher downloads the raw
patch of the first element of the parents list when the description starts
with `try_task_config`, and of the diff's own commit otherwise; the rest
of the pipeline is the same in both cases. A `try_task_config` commit with
no parents raises `IndexError` inside the per-diff `try` block instead of
fetching anything. -/
theorem load_hgmo_patch_resolution
    (fm : String → Except String CommitMeta)
    (fr : String → Except String String)
    (parse : String → RawPatch) (d : Diff) (meta : CommitMeta)
    (h : fm d.mercurial_hash = Except.ok meta) :
    (∀ p rest, startswith meta.desc "try_task_config" = true →
      meta.parents = p :: rest →
      load_hgmo_patch fm fr parse d = finish_patch parse (fr p)) ∧
    (startswith meta.desc "try_task_config" = false →
      load_hgmo_patch fm fr parse d =
        finish_patch parse (fr d.mercurial_hash)) ∧
    (startswith meta.desc "try_task_config" = true → meta.parents = [] →
      load_hgmo_patch fm fr parse d =
        Except.error "IndexError: list index out of range") := by
  refine ⟨?_, ?_, ?_⟩
  · intro p rest htry hparents
    simp [load_hgmo_patch, h, resolved_rev, htry, hparents,
      Bind.bind, Except.bind]
  · intro htry
    simp [load_hgmo_patch, h, resolved_rev, htry, Bind.bind, Except.bind]
  · intro htry hparents
    simp [load_hgmo_patch, h, resolved_rev, htry, hparents,
      Bind.bind, Except.bind]

/-- Witness for C2: with metadata
`{"desc": "try_task_config for bug X", "parents": ["P1","P2"]}` the raw
patch fetched is `P1`'s, so the pipeline succeeds even though the fetcher
fixture errors on every other commit. -/
theorem load_hgmo_patch_resolution_witness :
    load_hgmo_patch exFm exFr exParse exDiff =
      finish_patch exParse (exFr "P1") :=
  (load_hgmo_patch_resolution exFm exFr exParse exDiff exMeta rfl).1
    "P1" ["P2"] (by decide) rfl

/-- C3: a diff any of whose steps — fetch, parse or the batched write —
fails is caught at the per-diff boundary: its rows keep their `in_patch`
(identity fields of every row survive), while every other selected diff is
still attempted — a selected diff whose whole `try` body succeeds ends
with all its rows concretely classified — and the batch operation is a
total function (no exception escapes). -/
theorem handle_failure_isolation
    (fm : String → Except String CommitMeta)
    (fr : String → Except String String) (parse : String → RawPatch)
    (raises : PersistFailure)
    (diffs : List Diff) (db : List IssueLink) (d : Diff)
    (hfail : ∀ acc : List IssueLink, ∃ e,
      process_diff_try_persist fm fr parse raises acc d = Except.error e)
    (hids : (db.map IssueLink.id).Nodup)
    (hpk : ∀ d' ∈ diffs, d'.id = d.id → d' = d) :
    List.Forall₂ (fun l l' =>
        (l'.id = l.id ∧ l'.diff_id = l.diff_id ∧
          l'.revision_id = l.revision_id ∧ l'.issue = l.issue) ∧
        (l.diff_id = d.id → l'.in_patch = l.in_patch))
      db (handle_persist fm fr parse raises diffs db) ∧
    (∀ d2, d2 ∈ select_diffs diffs db →
      (∀ acc : List IssueLink, ∃ out,
        process_diff_try_persist fm fr parse raises acc d2 = Except.ok out) →
      List.Forall₂ (fun l l' => l.diff_id = d2.id → ∃ b, l'.in_patch = some b)
        db (handle_persist fm fr parse raises diffs db)) := by
  constructor
  · unfold handle_persist
    apply foldl_frame_persist fm fr parse raises (fun n => n = d.id) db hids
    · intro d' hd' hPd' acc
      have hd'in : d' ∈ diffs := ((mem_select_diffs diffs db d').mp hd').1
      rw [hpk d' hd'in hPd']
      rcases hfail acc with ⟨e, he⟩
      exact process_diff_persist_of_error fm fr parse raises acc d e he
    · exact List.forall₂_same.mpr
        (fun x _ => ⟨⟨rfl, rfl, rfl, rfl⟩, fun _ => rfl⟩)
  · intro d2 hd2 hok
    exact handle_persist_success fm fr parse raises diffs db d2 hd2 hok

/-- Witness for C3: in the first run diff 1's fetch succeeds but its
batched write raises `database error`, and its row keeps its unknown
state; in the second run diff 1's metadata fetch fails with `http 500`
while diff 2's fetch, parse and write all succeed, and diff 2's row is
classified. -/
theorem handle_failure_isolation_witness :
    List.Forall₂ (fun l l' =>
        (l'.id = l.id ∧ l'.diff_id = l.diff_id ∧
          l'.revision_id = l.revision_id ∧ l'.issue = l.issue) ∧
        (l.diff_id = wD1.id → l'.in_patch = l.in_patch))
      wDb (handle_persist wFmOk wFr wParse wRaisesAll wDiffs wDb) ∧
    List.Forall₂ (fun l l' => l.diff_id = wD2.id → ∃ b, l'.in_patch = some b)
      wDb (handle_persist wFm wFr wParse wRaisesNone wDiffs wDb) := by
  constructor
  · exact (handle_failure_isolation wFmOk wFr wParse wRaisesAll wDiffs wDb wD1
      (fun _ => ⟨"database error", rfl⟩) (by decide) (by decide)).1
  · exact (handle_failure_isolation wFm wFr wParse wRaisesNone wDiffs wDb wD1
      (fun _ => ⟨"http 500", rfl⟩) (by decide) (by decide)).2 wD2
      (by decide) (fun _ => ⟨_, rfl⟩)

/-- C4: a fetched patch that parses to the empty per-file map makes
`load_hgmo_patch` fail with the `Empty patch` assertion, and the failure
is handled exactly like a fetch failure: the table is left unchanged. -/
theorem empty_patch_rejected
    (fm : String → Except String CommitMeta)
    (fr : String → Except String String) (parse : String → RawPatch)
    (db : List IssueLink) (d : Diff) (meta : CommitMeta)
    (rev text : String)
    (hm : fm d.mercurial_hash = Except.ok meta)
    (hrev : resolved_rev meta d.mercurial_hash = Except.ok rev)
    (hr : fr rev = Except.ok text)
    (hp : parse text = []) :
    load_hgmo_patch fm fr parse d = Except.error "Empty patch" ∧
    process_diff fm fr parse db d = db := by
  have h1 : load_hgmo_patch fm fr parse d = Except.error "Empty patch" := by
    simp [load_hgmo_patch, finish_patch, hm, hrev, hr, hp,
      Bind.bind, Except.bind]
  exact ⟨h1, process_diff_of_error fm fr parse db d "Empty patch" h1⟩

/-- Witness for C4: a parser returning the empty map on an otherwise
healthy diff leaves the table untouched. -/
theorem empty_patch_rejected_witness :
    load_hgmo_patch wFmOk wFr wParseEmpty wD1 = Except.error "Empty patch" ∧
    process_diff wFmOk wFr wParseEmpty wDb wD1 = wDb :=
  empty_patch_rejected wFmOk wFr wParseEmpty wDb wD1
    { desc := "fix bug", parents := [] } "H1" "patch text" rfl rfl rfl rfl

/-- C5: the selection returns exactly the diffs having at least one link
with unknown `in_patch`, in ascending diff-id order, without
duplicates. -/
theorem select_diffs_spec (diffs : List Diff) (db : List IssueLink) :
    (∀ d, d ∈ select_diffs diffs db ↔
      d ∈ diffs ∧ ∃ l ∈ db, l.diff_id = d.id ∧ l.in_patch = none) ∧
    List.Sorted (fun a b : Diff => a.id ≤ b.id) (select_diffs diffs db) ∧
    (select_diffs diffs db).Nodup := by
  refine ⟨mem_select_diffs diffs db, ?_, List.nodup_dedup _⟩
  exact List.Pairwise.sublist (List.dedup_sublist _)
    (List.sorted_insertionSort _ _)

/-- C6: when every selected diff of the first run is fetchable, the second
run selects no diff and performs no work — the table after the second run
is the table after the first. -/
theorem handle_idempotent (fm : String → Except String CommitMeta)
    (fr : String → Except String String) (parse : String → RawPatch)
    (diffs : List Diff) (db : List IssueLink)
    (hok : ∀ d ∈ select_diffs diffs db,
      ∃ L, load_hgmo_patch fm fr parse d = Except.ok L) :
    select_diffs diffs (handle fm fr parse diffs db) = [] ∧
    handle fm fr parse diffs (handle fm fr parse diffs db) =
      handle fm fr parse diffs db := by
  have hmono : List.Forall₂ (fun l l' =>
      (l'.id = l.id ∧ l'.diff_id = l.diff_id ∧ l'.revision_id = l.revision_id ∧
        l'.issue = l.issue) ∧
      (l'.in_patch = l.in_patch ∨ ∃ b, l'.in_patch = some b))
      db (handle fm fr parse diffs db) :=
    foldl_mono fm fr parse (select_diffs diffs db) db
  have hempty : select_diffs diffs (handle fm fr parse diffs db) = [] := by
    rw [List.eq_nil_iff_forall_not_mem]
    intro d hd
    rw [mem_select_diffs] at hd
    rcases hd with ⟨hdin, l, hl, hdid, hnull⟩
    rcases forall2_mem_right hmono l hl with ⟨a, hamem, hm⟩
    have hadid : a.diff_id = d.id := by rw [← hm.1.2.1, hdid]
    cases ha : a.in_patch with
    | some c =>
      rcases hm.2 with hkeep | ⟨b, hb⟩
      · rw [hnull, ha] at hkeep; cases hkeep
      · rw [hnull] at hb; cases hb
    | none =>
      have hdsel : d ∈ select_diffs diffs db :=
        (mem_select_diffs diffs db d).mpr ⟨hdin, a, hamem, hadid, ha⟩
      rcases hok d hdsel with ⟨L, hL⟩
      have hsucc := handle_success_some fm fr parse diffs db d L hdsel hL
      rcases forall2_mem_right (forall2_and hmono hsucc) l hl
        with ⟨a2, _, ⟨hm2, hs2⟩⟩
      rcases hs2 (by rw [← hm2.1.2.1, hdid]) with ⟨b, hb⟩
      rw [hnull] at hb; cases hb
  refine ⟨hempty, ?_⟩
  rw [show handle fm fr parse diffs (handle fm fr parse diffs db) =
      (select_diffs diffs (handle fm fr parse diffs db)).foldl
        (process_diff fm fr parse) (handle fm fr parse diffs db) from rfl,
    hempty, List.foldl_nil]

/-- Witness for C6 on a concrete two-diff scenario where both fetches
succeed. -/
theorem handle_idempotent_witness :
    select_diffs wDiffs (handle wFmOk wFr wParse wDiffs wDb) = [] ∧
    handle wFmOk wFr wParse wDiffs (handle wFmOk wFr wParse wDiffs wDb) =
      handle wFmOk wFr wParse wDiffs wDb :=
  handle_idempotent wFmOk wFr wParse wDiffs wDb
    (fun _ _ => ⟨[("b.c", [3])], rfl⟩)

/-- C7: every execution path of the classifier writes a concrete boolean,
and a whole run only ever keeps a row's `in_patch` or sets it to a
concrete boolean — it never writes the unknown state back. -/
theorem in_patch_concrete_transition :
    (∀ (link : IssueLink) (lines : Lines),
      ∃ b, (detect_in_patch link lines).in_patch = some b) ∧
    ∀ (fm : String → Except String CommitMeta)
      (fr : String → Except String String) (parse : String → RawPatch)
      (diffs : List Diff) (db : List IssueLink),
      List.Forall₂ (fun l l' =>
          l'.in_patch = l.in_patch ∨ ∃ b, l'.in_patch = some b)
        db (handle fm fr parse diffs db) := by
  constructor
  · intro link lines
    exact (detect_fields link lines).2.2.2.2
  · intro fm fr parse diffs db
    exact (foldl_mono fm fr parse (select_diffs diffs db) db).imp
      (fun a b h => h.2)

/-- C8: the classifier is a pure function — its boolean depends only on
the issue's (path, line, nb_lines) and the ParsedPatch — and it modifies
nothing besides `in_patch`: the link's identity fields are returned
unchanged. -/
theorem detect_in_patch_pure (l1 l2 : IssueLink) (lines : Lines)
    (hpath : l1.issue.path = l2.issue.path)
    (hline : l1.issue.line = l2.issue.line)
    (hnb : l1.issue.nb_lines = l2.issue.nb_lines) :
    (detect_in_patch l1 lines).in_patch = (detect_in_patch l2 lines).in_patch ∧
    (detect_in_patch l1 lines).id = l1.id ∧
    (detect_in_patch l1 lines).diff_id = l1.diff_id ∧
    (detect_in_patch l1 lines).revision_id = l1.revision_id ∧
    (detect_in_patch l1 lines).issue = l1.issue := by
  refine ⟨?_, (detect_fields l1 lines).1, (detect_fields l1 lines).2.1,
    (detect_fields l1 lines).2.2.1, (detect_fields l1 lines).2.2.2.1⟩
  unfold detect_in_patch
  rw [hpath, hline, hnb]
  cases lines.lookup l2.issue.path with
  | none => rfl
  | some s =>
    cases l2.issue.line with
    | none => rfl
    | some ln => rfl

/-- Witness for C8: two links with the same issue location but different
identity fields and different prior states classify identically. -/
theorem detect_in_patch_pure_witness :
    (detect_in_patch exLinkA exPatch).in_patch =
      (detect_in_patch wLinkA2 exPatch).in_patch ∧
    (detect_in_patch exLinkA exPatch).id = exLinkA.id ∧
    (detect_in_patch exLinkA exPatch).diff_id = exLinkA.diff_id ∧
    (detect_in_patch exLinkA exPatch).revision_id = exLinkA.revision_id ∧
    (detect_in_patch exLinkA exPatch).issue = exLinkA.issue :=
  detect_in_patch_pure exLinkA wLinkA2 exPatch rfl rfl rfl

/-- C9: an issue is counted as publishable exactly when `in_patch` is true
or its level is `error`; the per-diff count and the per-check listing's
default filter both enforce that predicate. -/
theorem publishable_predicate (issues : List ApiIssue) :
    nb_issues_publishable issues =
      issues.countP
        (fun i => decide (i.in_patch = some true ∨ i.level = LEVEL_ERROR)) ∧
    ∃ out, issue_check_details none issues = Except.ok out ∧
      ∀ i, i ∈ out ↔
        i ∈ issues ∧ (i.in_patch = some true ∨ i.level = LEVEL_ERROR) := by
  constructor
  · rw [nb_issues_publishable, ← List.countP_eq_length_filter]
    apply List.countP_congr
    intro i _
    simp [beq_iff_eq]
  · refine ⟨issues.filter
      (fun i => (i.in_patch == some true) || (i.level == LEVEL_ERROR)), rfl, ?_⟩
    intro i
    rw [List.mem_filter]
    simp [beq_iff_eq]

/-- C10: a successful `process_diff` writes only the `in_patch` column —
every row keeps its identity fields — and rows of other diffs are left
entirely unchanged (the table's primary keys being distinct). -/
theorem process_diff_in_patch_only (fm : String → Except String CommitMeta)
    (fr : String → Except String String) (parse : String → RawPatch)
    (db : List IssueLink) (d : Diff)
    (hids : (db.map IssueLink.id).Nodup) :
    List.Forall₂ (fun l l' =>
        l'.id = l.id ∧ l'.diff_id = l.diff_id ∧
        l'.revision_id = l.revision_id ∧ l'.issue = l.issue ∧
        (l.diff_id ≠ d.id → l' = l))
      db (process_diff fm fr parse db d) := by
  refine (process_diff_step fm fr parse db d hids).imp ?_
  rintro a b ⟨⟨h1, h2, h3, h4⟩, _, h6⟩
  exact ⟨h1, h2, h3, h4, fun hne => IssueLink.ext h1 h2 h3 h4 (h6 hne)⟩

/-- Witness for C10: processing diff 2 on the two-row fixture leaves
diff 1's row untouched and only rewrites `in_patch` on diff 2's row. -/
theorem process_diff_in_patch_only_witness :
    List.Forall₂ (fun l l' =>
        l'.id = l.id ∧ l'.diff_id = l.diff_id ∧
        l'.revision_id = l.revision_id ∧ l'.issue = l.issue ∧
        (l.diff_id ≠ wD2.id → l' = l))
      wDb (process_diff wFmOk wFr wParse wDb wD2) :=
  process_diff_in_patch_only wFmOk wFr wParse wDb wD2 (by decide)

end CodeReview
